import Mathlib

/-!
Shallow embedding of the FAMMo `nft_minter` Solana/Anchor program
(`src/programs/nft_minter/src/lib.rs`) and proofs about it.

Modelling conventions:
* Public keys (`Pubkey`) are natural numbers; the two program-derived
  addresses (seeds `b"config"` and `b"payment_vault"`) are fixed distinct
  constants.
* `u64` fields are natural numbers; where the source can overflow
  (`config.total_minted += 1`, release-profile wrapping semantics) the
  increment is taken modulo `2 ^ 64`.
* Lamport balances are a total function `Pubkey -> Nat`.
* The host runtime and the two collaborator programs (token ledger,
  metadata registry) are not in the repository; their interface behaviour
  is modelled from the spec: the system-program transfer fails when the
  source balance is insufficient or would drop below the runtime's
  keep-alive minimum (both surfaced as `InsufficientFunds`), Anchor account
  constraints fail with `Authorization`/`InvalidState`, and each delegated
  collaborator call either succeeds or aborts the whole instruction
  (`CollaboratorFailure`), driven by per-invocation oracle flags.
* Transaction atomicity of the host runtime is modelled by `applyOp`:
  a failing instruction leaves the pre-state untouched.
-/

namespace NftMinter

/-- Account identities (public keys), modelled as natural numbers. -/
abbrev Pubkey := Nat

/-- The modulus of the 64-bit unsigned counters and amounts. -/
def U64 : Nat := 2 ^ 64

/-- Modelled from the spec: the program-derived address for the fixed seed
label of the configuration record (seed `b"config"`). -/
def configAddress : Pubkey := 1

/-- Modelled from the spec: the program-derived address for the fixed seed
label of the treasury (seed `b"payment_vault"`). -/
def paymentVaultAddress : Pubkey := 2

/-- The persistent `Config` record of the program (source lines 396-405). -/
structure Config where
  authority : Pubkey
  master_mint : Pubkey
  mint_price : Nat
  discounted_price : Nat
  total_minted : Nat
  payment_vault : Pubkey
deriving DecidableEq, Repr

/-- The on-chain records created by one successful mint: the metadata
account (`DataV2` of `CreateMetadataAccountV3`, source lines 218-242)
together with the edition-cap record (`CreateMasterEditionV3`,
source lines 257-273) and the ownership binding. -/
structure MintedNft where
  name : String
  symbol : String
  uri : String
  seller_fee_basis_points : Nat
  creator_address : Pubkey
  creator_verified : Bool
  creator_share : Nat
  collection_verified : Bool
  collection_key : Pubkey
  is_mutable : Bool
  max_supply : Nat
  owner : Pubkey
  mint_account : Pubkey
deriving DecidableEq, Repr

/-- Error kinds. The first three are the program's own declared
`ErrorCode` variants (source lines 407-415); the rest are the
runtime/constraint failure kinds of the spec's error taxonomy. -/
inductive Err where
  | Unauthorized
  | InvalidMasterMint
  | InsufficientPayment
  | Authorization
  | InsufficientFunds
  | InvalidState
  | CollaboratorFailure
deriving DecidableEq, Repr

/-- The program's own declared error codes (never produced by any path). -/
def isProgramErrorCode : Err → Bool
  | .Unauthorized => true
  | .InvalidMasterMint => true
  | .InsufficientPayment => true
  | _ => false

/-- The ledger state visible to this program: the (possibly absent)
configuration record, all lamport balances, and the list of records
created by successful mints, in mint order. -/
structure LedgerState where
  config : Option Config
  balances : Pubkey → Nat
  minted : List MintedNft

/-- Pointwise update of a balance map. -/
def setBal (b : Pubkey → Nat) (k : Pubkey) (v : Nat) : Pubkey → Nat :=
  fun x => if x = k then v else b x

/-- Modelled from the spec: the system-program lamport transfer invoked by
the source via `system_instruction::transfer`. It fails when the source
account's balance is insufficient for the amount, or when the transfer
would leave the source below the minimum balance the runtime requires to
keep the account alive. -/
def systemTransfer (b : Pubkey → Nat) (source dest : Pubkey)
    (amount minKeepAlive : Nat) : Except Err (Pubkey → Nat) :=
  if amount > b source then .error .InsufficientFunds
  else if b source - amount < minKeepAlive then .error .InsufficientFunds
  else
    let b1 := setBal b source (b source - amount)
    .ok (setBal b1 dest (b1 dest + amount))

/-- Per-invocation environment of a mint: the rent deposit the source
transfers into the fresh mint account (source line 130), the runtime's
keep-alive minimum, and one success flag for each delegated collaborator
call of the workflow. -/
structure MintEnv where
  mint_rent : Nat
  min_keep_alive : Nat
  init_mint_ok : Bool
  create_ata_ok : Bool
  mint_to_ok : Bool
  metadata_ok : Bool
  master_edition_ok : Bool
deriving DecidableEq, Repr

/-- The `initialize` instruction (source lines 18-33). The Anchor `init`
constraint fails when the config account already exists; otherwise the
authority funds the fresh account's rent and the record is written with
the fixed default prices. -/
def initConfig (s : LedgerState) (authority master_mint : Pubkey)
    (config_rent min_keep_alive : Nat) : Except Err LedgerState :=
  match s.config with
  | some _ => .error .InvalidState
  | none =>
    match systemTransfer s.balances authority configAddress config_rent min_keep_alive with
    | .error e => .error e
    | .ok b =>
    .ok { config := some
            { authority := authority
              master_mint := master_mint
              mint_price := 200000000
              discounted_price := 100000000
              total_minted := 0
              payment_vault := paymentVaultAddress }
          balances := b
          minted := s.minted }

/-- The price selection of `mint_nft_internal` (source lines 99-103);
the spec names it `price_for`. -/
def price_for (c : Config) (is_discounted : Bool) : Nat :=
  if is_discounted then c.discounted_price else c.mint_price

/-- The shared mint workflow `mint_nft_internal` (source lines 95-278):
pay the price into the vault, bump the counter (u64, wrapping), fund and
create the fresh mint account, then run the delegated collaborator calls
(initialize mint, create the associated token account, mint one unit,
create metadata, create the edition cap). The caller-supplied
`master_mint_acc` account is never read by the body, exactly as in the
source, where `ctx.accounts.master_mint` is unused. -/
def mint_nft_internal (s : LedgerState) (minter edition_mint : Pubkey)
    (master_mint_acc : Pubkey) (env : MintEnv) (is_discounted : Bool) :
    Except Err LedgerState :=
  match s.config with
  | none => .error .InvalidState
  | some config =>
    let price := price_for config is_discounted
    match systemTransfer s.balances minter paymentVaultAddress price env.min_keep_alive with
    | .error e => .error e
    | .ok b1 =>
    let total2 := (config.total_minted + 1) % U64
    let edition_number := total2
    match systemTransfer b1 minter edition_mint env.mint_rent env.min_keep_alive with
    | .error e => .error e
    | .ok b2 =>
    if env.init_mint_ok && env.create_ata_ok && env.mint_to_ok
        && env.metadata_ok && env.master_edition_ok then
      .ok { config := some { config with total_minted := total2 }
            balances := b2
            minted := s.minted ++
              [ { name := "AMMo Founder #" ++ Nat.repr edition_number
                  symbol := "FAMMo"
                  uri := "https://plum-imperial-swordfish-193.mypinata.cloud/ipfs/bafkreiddegzxdo2h3sliwjfpp22f46mfwb7frb3aibdqtln74uiiv3wkmy"
                  seller_fee_basis_points := 500
                  creator_address := minter
                  creator_verified := true
                  creator_share := 100
                  collection_verified := false
                  collection_key := config.master_mint
                  is_mutable := true
                  max_supply := 0
                  owner := minter
                  mint_account := edition_mint } ] }
    else .error .CollaboratorFailure

/-- The `mint_edition` entry point (source lines 36-38). -/
def mint_edition (s : LedgerState) (minter edition_mint master_mint_acc : Pubkey)
    (env : MintEnv) : Except Err LedgerState :=
  mint_nft_internal s minter edition_mint master_mint_acc env false

/-- The `mint_discounted` entry point (source lines 41-43). -/
def mint_discounted (s : LedgerState) (minter edition_mint master_mint_acc : Pubkey)
    (env : MintEnv) : Except Err LedgerState :=
  mint_nft_internal s minter edition_mint master_mint_acc env true

/-- The `update_pricing` instruction (source lines 46-64) behind the
`UpdateConfig` account constraints (source lines 359-371): `has_one =
authority` plus the signer requirement reject any caller other than the
stored authority; each supplied optional price overwrites its field. -/
def update_pricing (s : LedgerState) (caller : Pubkey)
    (new_regular_price new_discounted_price : Option Nat) : Except Err LedgerState :=
  match s.config with
  | none => .error .InvalidState
  | some config =>
    if caller = config.authority then
      let c1 := match new_regular_price with
        | some p => { config with mint_price := p }
        | none => config
      let c2 := match new_discounted_price with
        | some p => { c1 with discounted_price := p }
        | none => c1
      .ok { s with config := some c2 }
    else .error .Authorization

/-- The `withdraw` instruction (source lines 67-91) behind the `Withdraw`
account constraints (source lines 373-394): only the stored authority may
call it; the transfer out of the vault is authorized by the
`b"payment_vault"` seed material (`invoke_signed`), not by a signature,
and the config account is not marked mutable. -/
def withdraw (s : LedgerState) (caller : Pubkey) (amount min_keep_alive : Nat) :
    Except Err LedgerState :=
  match s.config with
  | none => .error .InvalidState
  | some config =>
    if caller = config.authority then
      match systemTransfer s.balances paymentVaultAddress caller amount min_keep_alive with
      | .error e => .error e
      | .ok b => .ok { s with balances := b }
    else .error .Authorization

/-- One submitted instruction, together with its per-invocation
environment inputs. -/
inductive Op where
  | opInit (authority master_mint : Pubkey) (config_rent min_keep_alive : Nat)
  | opMintEdition (minter edition_mint master_mint_acc : Pubkey) (env : MintEnv)
  | opMintDiscounted (minter edition_mint master_mint_acc : Pubkey) (env : MintEnv)
  | opUpdatePricing (caller : Pubkey) (new_regular_price new_discounted_price : Option Nat)
  | opWithdraw (caller : Pubkey) (amount min_keep_alive : Nat)
deriving DecidableEq, Repr

/-- Dispatch of the five entry points. -/
def exec (s : LedgerState) : Op → Except Err LedgerState
  | .opInit a m r k => initConfig s a m r k
  | .opMintEdition mi em acc env => mint_edition s mi em acc env
  | .opMintDiscounted mi em acc env => mint_discounted s mi em acc env
  | .opUpdatePricing c r d => update_pricing s c r d
  | .opWithdraw c a k => withdraw s c a k

/-- Whether an instruction succeeds on a state. -/
def execOk (s : LedgerState) (op : Op) : Bool :=
  match exec s op with
  | .ok _ => true
  | .error _ => false

/-- The error kind an instruction fails with, if any. -/
def execErr (s : LedgerState) (op : Op) : Option Err :=
  match exec s op with
  | .ok _ => none
  | .error e => some e

/-- Transaction semantics of the host runtime: a failing instruction is
rolled back wholly, leaving the pre-state. -/
def applyOp (s : LedgerState) (op : Op) : LedgerState :=
  match exec s op with
  | .ok t => t
  | .error _ => s

/-- Run a history of instructions. -/
def run (s : LedgerState) (ops : List Op) : LedgerState :=
  ops.foldl applyOp s

/-- A pre-`initialize` ledger: no configuration record, no mints, and
arbitrary initial balances. -/
def genesis (bal : Pubkey → Nat) : LedgerState :=
  { config := none, balances := bal, minted := [] }

/-- The stored mint counter, 0 while the record is absent. -/
def totalMinted (s : LedgerState) : Nat :=
  match s.config with
  | some c => c.total_minted
  | none => 0

/-- Whether an instruction is one of the two mint entry points. -/
def isMintOp : Op → Bool
  | .opMintEdition _ _ _ _ => true
  | .opMintDiscounted _ _ _ _ => true
  | _ => false

/-- The mint entry point selected by the discount flag, as one `Op`. -/
def mintOpOf (is_discounted : Bool) (minter edition_mint master_mint_acc : Pubkey)
    (env : MintEnv) : Op :=
  if is_discounted then .opMintDiscounted minter edition_mint master_mint_acc env
  else .opMintEdition minter edition_mint master_mint_acc env

/-! Injectivity of the decimal numeral printer `Nat.repr`, needed for the
distinctness of display names. -/

/-- The numeric value of a decimal digit character. -/
def decDigitVal (c : Char) : Nat := c.toNat - 48

/-- The numeric value of a most-significant-first decimal digit string. -/
def decListVal (l : List Char) : Nat :=
  l.foldl (fun a c => 10 * a + decDigitVal c) 0

/-- The display name of the unit with sequence number `n`, as built by the
source (`format!` at line 230). -/
def founderName (n : Nat) : String := "AMMo Founder #" ++ Nat.repr n

/-- The display names of all minted units, in mint order. -/
def namesList (s : LedgerState) : List String := s.minted.map MintedNft.name

/-- The invariant of every state reachable from a pre-`initialize` ledger:
the stored counter is the number of minted units modulo `2 ^ 64`, and the
`i`-th minted unit (0-based) carries the display name of sequence number
`(i + 1) % 2 ^ 64`. -/
def NamesOk (s : LedgerState) : Prop :=
  totalMinted s = s.minted.length % U64 ∧
  namesList s = (List.range s.minted.length).map (fun i => founderName ((i + 1) % U64))


/-! Concrete fixtures used by witness and counterexample theorems. -/

/-- A balance map giving every account 1 SOL. -/
def wBal : Pubkey → Nat := fun _ => 1000000000

/-- A freshly initialized configuration record (authority 100, master
mint 777). -/
def wCfg : Config :=
  { authority := 100, master_mint := 777, mint_price := 200000000,
    discounted_price := 100000000, total_minted := 0,
    payment_vault := paymentVaultAddress }

/-- An initialized ledger with no mints yet. -/
def wState : LedgerState :=
  { config := some wCfg, balances := wBal, minted := [] }

/-- A mint environment with a positive rent deposit for the fresh mint
account and all collaborator calls succeeding. -/
def cexEnv : MintEnv :=
  { mint_rent := 1461600, min_keep_alive := 0, init_mint_ok := true,
    create_ata_ok := true, mint_to_ok := true, metadata_ok := true,
    master_edition_ok := true }

/-- A mint environment with zero rent and all collaborator calls
succeeding. -/
def cexFreeEnv : MintEnv :=
  { mint_rent := 0, min_keep_alive := 0, init_mint_ok := true,
    create_ata_ok := true, mint_to_ok := true, metadata_ok := true,
    master_edition_ok := true }

/-- A two-instruction setup: initialize, then set both prices to 0. -/
def cexSetup : List Op :=
  [.opInit 100 777 0 0, .opUpdatePricing 100 (some 0) (some 0)]

/-- The configuration record produced by `cexSetup`. -/
def cexCfg0 : Config :=
  { authority := 100, master_mint := 777, mint_price := 0,
    discounted_price := 0, total_minted := 0,
    payment_vault := paymentVaultAddress }

/-- One free mint instruction (prices are 0 after `cexSetup`). -/
def cexMint : Op := .opMintEdition 50 55 777 cexFreeEnv

/-- A history performing `2 ^ 64 - 1` successful mints after setup. -/
def cexPrefixHist : List Op := cexSetup ++ List.replicate (U64 - 1) cexMint

/-- A short history: initialize, then one standard mint. -/
def wHist : List Op := [.opInit 100 777 0 0, .opMintEdition 50 55 777 cexEnv]


theorem decDigitVal_digitChar (m : Nat) (h : m < 10) :
    decDigitVal (Nat.digitChar m) = m := by
  interval_cases m <;> rfl

theorem toDigitsCore_append (fuel : Nat) :
    ∀ (n : Nat) (ds : List Char),
      Nat.toDigitsCore 10 fuel n ds = Nat.toDigitsCore 10 fuel n [] ++ ds := by
  induction fuel with
  | zero => intro n ds; simp [Nat.toDigitsCore]
  | succ f ih =>
    intro n ds
    simp only [Nat.toDigitsCore]
    by_cases h : n / 10 = 0
    · simp [h]
    · simp only [h, if_false]
      rw [ih (n / 10) (Nat.digitChar (n % 10) :: ds),
        ih (n / 10) (Nat.digitChar (n % 10) :: [])]
      simp

theorem decListVal_concat (l : List Char) (c : Char) :
    decListVal (l ++ [c]) = 10 * decListVal l + decDigitVal c := by
  simp [decListVal, List.foldl_append]

theorem decListVal_toDigitsCore (fuel : Nat) :
    ∀ n : Nat, n < fuel → decListVal (Nat.toDigitsCore 10 fuel n []) = n := by
  induction fuel with
  | zero => intro n h; omega
  | succ f ih =>
    intro n h
    simp only [Nat.toDigitsCore]
    by_cases h0 : n / 10 = 0
    · have hn : n < 10 := by omega
      simp only [h0, if_true]
      show 10 * 0 + decDigitVal (Nat.digitChar (n % 10)) = n
      rw [Nat.mod_eq_of_lt hn, decDigitVal_digitChar n hn]
      omega
    · have hge : 10 ≤ n := by
        by_contra hlt
        exact h0 (Nat.div_eq_of_lt (by omega))
      have hdiv : n / 10 < f := by
        have h1 : n / 10 < n := Nat.div_lt_self (by omega) (by omega)
        omega
      simp only [h0, if_false]
      rw [toDigitsCore_append, decListVal_concat, ih (n / 10) hdiv,
        decDigitVal_digitChar (n % 10) (Nat.mod_lt n (by omega))]
      exact Nat.div_add_mod n 10

theorem decListVal_toDigits (n : Nat) : decListVal (Nat.toDigits 10 n) = n :=
  decListVal_toDigitsCore (n + 1) n (Nat.lt_succ_self n)

theorem nat_repr_inj {m n : Nat} (h : Nat.repr m = Nat.repr n) : m = n := by
  have hdata : Nat.toDigits 10 m = Nat.toDigits 10 n := by
    have := congrArg String.data h
    simpa [Nat.repr, List.asString] using this
  have hm := decListVal_toDigits m
  rw [hdata, decListVal_toDigits n] at hm
  exact hm.symm

theorem founderName_inj {m n : Nat} (h : founderName m = founderName n) : m = n := by
  apply nat_repr_inj
  have hdata := congrArg String.data h
  simp only [founderName, String.data_append] at hdata
  have := List.append_cancel_left hdata
  cases hm : Nat.repr m
  all_goals
    cases hn : Nat.repr n
    all_goals
      rw [hm, hn] at this
      simp_all

/-! Reachability invariant tying the counter to the minted records. -/

/-! Characterization lemmas for the individual operations. -/

theorem systemTransfer_ok {b : Pubkey → Nat} {src dst : Pubkey} {amt mk b2 : _}
    (h : systemTransfer b src dst amt mk = .ok b2) :
    amt ≤ b src ∧ mk ≤ b src - amt ∧
    b2 = setBal (setBal b src (b src - amt)) dst
      ((setBal b src (b src - amt)) dst + amt) := by
  simp only [systemTransfer] at h
  split at h
  · exact absurd h (by simp)
  · split at h
    · exact absurd h (by simp)
    · refine ⟨by omega, by omega, ?_⟩
      exact (Except.ok.inj h).symm

theorem systemTransfer_ok_dest {b : Pubkey → Nat} {src dst : Pubkey} {amt mk b2 : _}
    (h : systemTransfer b src dst amt mk = .ok b2) (hne : src ≠ dst) :
    b2 dst = b dst + amt := by
  obtain ⟨-, -, rfl⟩ := systemTransfer_ok h
  simp [setBal, hne, Ne.symm hne]

theorem systemTransfer_ok_src {b : Pubkey → Nat} {src dst : Pubkey} {amt mk b2 : _}
    (h : systemTransfer b src dst amt mk = .ok b2) (hne : src ≠ dst) :
    b2 src = b src - amt := by
  obtain ⟨-, -, rfl⟩ := systemTransfer_ok h
  simp [setBal, hne, Ne.symm hne]

theorem systemTransfer_ok_other {b : Pubkey → Nat} {src dst x : Pubkey} {amt mk b2 : _}
    (h : systemTransfer b src dst amt mk = .ok b2) (h1 : x ≠ src) (h2 : x ≠ dst) :
    b2 x = b x := by
  obtain ⟨-, -, rfl⟩ := systemTransfer_ok h
  simp [setBal, h1, h2]

theorem systemTransfer_pos {b : Pubkey → Nat} {src dst : Pubkey} {amt mk : Nat}
    (h1 : amt ≤ b src) (h2 : mk ≤ b src - amt) :
    systemTransfer b src dst amt mk = .ok
      (setBal (setBal b src (b src - amt)) dst
        ((setBal b src (b src - amt)) dst + amt)) := by
  simp only [systemTransfer]
  rw [if_neg (by omega), if_neg (by omega)]

theorem systemTransfer_neg {b : Pubkey → Nat} {src dst : Pubkey} {amt mk : Nat}
    (h : amt > b src ∨ b src - amt < mk) :
    systemTransfer b src dst amt mk = .error .InsufficientFunds := by
  simp only [systemTransfer]
  rcases h with h | h
  · rw [if_pos h]
  · by_cases h1 : amt > b src
    · rw [if_pos h1]
    · rw [if_neg h1, if_pos h]

theorem initConfig_ok {s : LedgerState} {a m : Pubkey} {r k : Nat} {t : LedgerState}
    (h : initConfig s a m r k = .ok t) :
    s.config = none ∧
    t.config = some
      { authority := a, master_mint := m, mint_price := 200000000,
        discounted_price := 100000000, total_minted := 0,
        payment_vault := paymentVaultAddress } ∧
    t.minted = s.minted := by
  unfold initConfig at h
  split at h
  · exact absurd h (by simp)
  · rename_i hc
    split at h
    · exact absurd h (by simp)
    · obtain rfl := Except.ok.inj h
      exact ⟨hc, rfl, rfl⟩

theorem update_pricing_ok {s : LedgerState} {caller : Pubkey}
    {nr nd : Option Nat} {t : LedgerState}
    (h : update_pricing s caller nr nd = .ok t) :
    ∃ c, s.config = some c ∧ caller = c.authority ∧
      t.config = some { c with mint_price := nr.getD c.mint_price,
                               discounted_price := nd.getD c.discounted_price } ∧
      t.balances = s.balances ∧ t.minted = s.minted := by
  unfold update_pricing at h
  split at h
  · exact absurd h (by simp)
  · rename_i c hc
    split at h
    · rename_i hauth
      obtain rfl := Except.ok.inj h
      refine ⟨c, hc, hauth, ?_, rfl, rfl⟩
      cases nr <;> cases nd <;> rfl
    · exact absurd h (by simp)

theorem withdraw_ok {s : LedgerState} {caller : Pubkey} {amt k : Nat} {t : LedgerState}
    (h : withdraw s caller amt k = .ok t) :
    ∃ c, s.config = some c ∧ caller = c.authority ∧
      systemTransfer s.balances paymentVaultAddress caller amt k = .ok t.balances ∧
      t.config = s.config ∧ t.minted = s.minted := by
  unfold withdraw at h
  split at h
  · exact absurd h (by simp)
  · rename_i c hc
    split at h
    · rename_i hauth
      split at h
      · exact absurd h (by simp)
      · rename_i b htr
        obtain rfl := Except.ok.inj h
        exact ⟨c, hc, hauth, htr, by simp [hc], rfl⟩
    · exact absurd h (by simp)

theorem mint_nft_internal_ok {s : LedgerState} {mi em acc : Pubkey}
    {env : MintEnv} {d : Bool} {t : LedgerState}
    (h : mint_nft_internal s mi em acc env d = .ok t) :
    ∃ c b1, s.config = some c ∧
      systemTransfer s.balances mi paymentVaultAddress (price_for c d)
        env.min_keep_alive = .ok b1 ∧
      systemTransfer b1 mi em env.mint_rent env.min_keep_alive = .ok t.balances ∧
      t.config = some { c with total_minted := (c.total_minted + 1) % U64 } ∧
      t.minted = s.minted ++
        [ { name := founderName ((c.total_minted + 1) % U64)
            symbol := "FAMMo"
            uri := "https://plum-imperial-swordfish-193.mypinata.cloud/ipfs/bafkreiddegzxdo2h3sliwjfpp22f46mfwb7frb3aibdqtln74uiiv3wkmy"
            seller_fee_basis_points := 500
            creator_address := mi
            creator_verified := true
            creator_share := 100
            collection_verified := false
            collection_key := c.master_mint
            is_mutable := true
            max_supply := 0
            owner := mi
            mint_account := em } ] := by
  unfold mint_nft_internal at h
  split at h
  · exact absurd h (by simp)
  · rename_i c hc
    dsimp only at h
    cases htr1 : systemTransfer s.balances mi paymentVaultAddress (price_for c d)
        env.min_keep_alive with
    | error e => rw [htr1] at h; exact absurd h (by simp)
    | ok b1 =>
      rw [htr1] at h
      dsimp only at h
      cases htr2 : systemTransfer b1 mi em env.mint_rent env.min_keep_alive with
      | error e => rw [htr2] at h; exact absurd h (by simp)
      | ok b2 =>
        rw [htr2] at h
        dsimp only at h
        split at h
        · obtain rfl := Except.ok.inj h
          exact ⟨c, b1, hc, htr1, htr2, rfl, rfl⟩
        · exact absurd h (by simp)

theorem totalMinted_eq {s : LedgerState} {c : Config} (h : s.config = some c) :
    totalMinted s = c.total_minted := by
  unfold totalMinted
  rw [h]

theorem applyOp_of_error {s : LedgerState} {op : Op} {e : Err}
    (h : exec s op = .error e) : applyOp s op = s := by
  simp [applyOp, h]

theorem applyOp_of_ok {s : LedgerState} {op : Op} {t : LedgerState}
    (h : exec s op = .ok t) : applyOp s op = t := by
  simp [applyOp, h]

theorem systemTransfer_error {b : Pubkey → Nat} {src dst : Pubkey} {amt mk : Nat}
    {e : Err} (h : systemTransfer b src dst amt mk = .error e) :
    e = .InsufficientFunds := by
  simp only [systemTransfer] at h
  split at h
  · exact (Except.error.inj h).symm
  · split at h
    · exact (Except.error.inj h).symm
    · exact absurd h (by simp)

/-! Preservation of the reachability invariant. -/

theorem namesOk_mint {s : LedgerState} {mi em acc : Pubkey} {env : MintEnv}
    {d : Bool} {t : LedgerState}
    (hex : mint_nft_internal s mi em acc env d = .ok t) (h : NamesOk s) :
    NamesOk t := by
  obtain ⟨c, b1, hc, -, -, hct, hm⟩ := mint_nft_internal_ok hex
  have hlen : t.minted.length = s.minted.length + 1 := by simp [hm]
  have hcs : c.total_minted = s.minted.length % U64 := by
    simpa [totalMinted, hc] using h.1
  constructor
  · simp only [totalMinted, hct]
    rw [hlen, hcs]
    exact Nat.mod_add_mod _ _ _
  · have h2 : namesList s =
        (List.range s.minted.length).map (fun i => founderName ((i + 1) % U64)) := h.2
    show namesList t = _
    rw [show t.minted.length = s.minted.length + 1 from hlen]
    simp only [namesList, hm, List.map_append, List.range_succ]
    congr 1
    simp only [List.map_cons, List.map_nil]
    rw [hcs, Nat.mod_add_mod]

theorem namesOk_applyOp {s : LedgerState} (op : Op) (h : NamesOk s) :
    NamesOk (applyOp s op) := by
  cases hex : exec s op with
  | error e => rw [applyOp_of_error hex]; exact h
  | ok t =>
    rw [applyOp_of_ok hex]
    cases op with
    | opInit a m r k =>
      obtain ⟨hc, hct, hm⟩ := initConfig_ok (show initConfig s a m r k = .ok t from hex)
      have h0 : (0 : Nat) = s.minted.length % U64 := by
        simpa [totalMinted, hc] using h.1
      constructor
      · simp only [totalMinted, hct, hm]
        exact h0
      · simp only [namesList, hm]
        exact h.2
    | opMintEdition mi em acc env => exact @namesOk_mint s mi em acc env false t hex h
    | opMintDiscounted mi em acc env => exact @namesOk_mint s mi em acc env true t hex h
    | opUpdatePricing caller nr nd =>
      obtain ⟨c, hc, -, hct, -, hm⟩ :=
        update_pricing_ok (show update_pricing s caller nr nd = .ok t from hex)
      constructor
      · simp only [totalMinted, hct, hm]
        simpa [totalMinted, hc] using h.1
      · simp only [namesList, hm]
        exact h.2
    | opWithdraw caller amt k =>
      obtain ⟨c, hc, -, -, hct, hm⟩ :=
        withdraw_ok (show withdraw s caller amt k = .ok t from hex)
      constructor
      · simp only [totalMinted, hct, hm]
        exact h.1
      · simp only [namesList, hm]
        exact h.2

theorem run_cons (s : LedgerState) (op : Op) (rest : List Op) :
    run s (op :: rest) = run (applyOp s op) rest := rfl

theorem run_append (s : LedgerState) (l1 l2 : List Op) :
    run s (l1 ++ l2) = run (run s l1) l2 :=
  List.foldl_append _ _ _ _

theorem namesOk_run {s : LedgerState} (ops : List Op) (h : NamesOk s) :
    NamesOk (run s ops) := by
  induction ops generalizing s with
  | nil => exact h
  | cons op rest ih => exact ih (namesOk_applyOp op h)

theorem namesOk_genesis (bal : Pubkey → Nat) : NamesOk (genesis bal) := by
  constructor <;> simp [totalMinted, genesis, namesList]

theorem minted_length_applyOp (s : LedgerState) (op : Op) :
    s.minted.length ≤ (applyOp s op).minted.length := by
  cases hex : exec s op with
  | error e => rw [applyOp_of_error hex]
  | ok t =>
    rw [applyOp_of_ok hex]
    cases op with
    | opInit a m r k =>
      obtain ⟨-, -, hm⟩ := initConfig_ok (show initConfig s a m r k = .ok t from hex)
      simp [hm]
    | opMintEdition mi em acc env =>
      obtain ⟨c, b1, -, -, -, -, hm⟩ := @mint_nft_internal_ok s mi em acc env false t hex
      simp [hm]
    | opMintDiscounted mi em acc env =>
      obtain ⟨c, b1, -, -, -, -, hm⟩ := @mint_nft_internal_ok s mi em acc env true t hex
      simp [hm]
    | opUpdatePricing caller nr nd =>
      obtain ⟨c, hc, -, -, -, hm⟩ :=
        update_pricing_ok (show update_pricing s caller nr nd = .ok t from hex)
      simp [hm]
    | opWithdraw caller amt k =>
      obtain ⟨c, hc, -, -, -, hm⟩ :=
        withdraw_ok (show withdraw s caller amt k = .ok t from hex)
      simp [hm]

theorem minted_length_run (s : LedgerState) (ops : List Op) :
    s.minted.length ≤ (run s ops).minted.length := by
  induction ops generalizing s with
  | nil => exact Nat.le_refl _
  | cons op rest ih =>
    exact Nat.le_trans (minted_length_applyOp s op) (ih (applyOp s op))

/-! Classification of every error an operation can produce. -/

theorem initConfig_error {s : LedgerState} {a m : Pubkey} {r k : Nat} {e : Err}
    (h : initConfig s a m r k = .error e) :
    e = .InvalidState ∨ e = .InsufficientFunds := by
  unfold initConfig at h
  split at h
  · exact Or.inl (Except.error.inj h).symm
  · split at h
    · rename_i e1 htr
      obtain rfl := Except.error.inj h
      exact Or.inr (systemTransfer_error htr)
    · exact absurd h (by simp)

theorem mint_nft_internal_error {s : LedgerState} {mi em acc : Pubkey}
    {env : MintEnv} {d : Bool} {e : Err}
    (h : mint_nft_internal s mi em acc env d = .error e) :
    e = .InvalidState ∨ e = .InsufficientFunds ∨ e = .CollaboratorFailure := by
  unfold mint_nft_internal at h
  split at h
  · exact Or.inl (Except.error.inj h).symm
  · rename_i c hc
    dsimp only at h
    cases htr1 : systemTransfer s.balances mi paymentVaultAddress (price_for c d)
        env.min_keep_alive with
    | error e1 =>
      rw [htr1] at h
      dsimp only at h
      obtain rfl := Except.error.inj h
      exact Or.inr (Or.inl (systemTransfer_error htr1))
    | ok b1 =>
      rw [htr1] at h
      dsimp only at h
      cases htr2 : systemTransfer b1 mi em env.mint_rent env.min_keep_alive with
      | error e2 =>
        rw [htr2] at h
        dsimp only at h
        obtain rfl := Except.error.inj h
        exact Or.inr (Or.inl (systemTransfer_error htr2))
      | ok b2 =>
        rw [htr2] at h
        dsimp only at h
        split at h
        · exact absurd h (by simp)
        · exact Or.inr (Or.inr (Except.error.inj h).symm)

theorem update_pricing_error {s : LedgerState} {caller : Pubkey}
    {nr nd : Option Nat} {e : Err}
    (h : update_pricing s caller nr nd = .error e) :
    e = .InvalidState ∨ e = .Authorization := by
  unfold update_pricing at h
  split at h
  · exact Or.inl (Except.error.inj h).symm
  · split at h
    · exact absurd h (by simp)
    · exact Or.inr (Except.error.inj h).symm

theorem withdraw_error {s : LedgerState} {caller : Pubkey} {amt k : Nat} {e : Err}
    (h : withdraw s caller amt k = .error e) :
    e = .InvalidState ∨ e = .Authorization ∨ e = .InsufficientFunds := by
  unfold withdraw at h
  split at h
  · exact Or.inl (Except.error.inj h).symm
  · split at h
    · split at h
      · rename_i e1 htr
        obtain rfl := Except.error.inj h
        exact Or.inr (Or.inr (systemTransfer_error htr))
      · exact absurd h (by simp)
    · exact Or.inr (Or.inl (Except.error.inj h).symm)

theorem update_pricing_unauthorized {s : LedgerState} {c : Config} {caller : Pubkey}
    (nr nd : Option Nat) (hc : s.config = some c) (hne : caller ≠ c.authority) :
    update_pricing s caller nr nd = .error .Authorization := by
  unfold update_pricing
  rw [hc]
  dsimp only
  rw [if_neg hne]

theorem withdraw_unauthorized {s : LedgerState} {c : Config} {caller : Pubkey}
    (amt k : Nat) (hc : s.config = some c) (hne : caller ≠ c.authority) :
    withdraw s caller amt k = .error .Authorization := by
  unfold withdraw
  rw [hc]
  dsimp only
  rw [if_neg hne]

theorem exec_mintOpOf (s : LedgerState) (d : Bool) (mi em acc : Pubkey)
    (env : MintEnv) :
    exec s (mintOpOf d mi em acc env) = mint_nft_internal s mi em acc env d := by
  cases d <;> rfl

/-! Claim theorems. -/

/-- C4: for every caller different from the stored `Config.authority`,
`update_pricing` and `withdraw` fail with the authorization error of the
`has_one = authority` constraint, and the whole state (configuration
record, all balances including the treasury, minted records) is exactly
unchanged. -/
theorem unauthorized_admin_ops_fail (s : LedgerState) (c : Config) (caller : Pubkey)
    (nr nd : Option Nat) (amt k : Nat)
    (hc : s.config = some c) (hne : caller ≠ c.authority) :
    execErr s (.opUpdatePricing caller nr nd) = some .Authorization ∧
    applyOp s (.opUpdatePricing caller nr nd) = s ∧
    execErr s (.opWithdraw caller amt k) = some .Authorization ∧
    applyOp s (.opWithdraw caller amt k) = s := by
  have h1 : exec s (.opUpdatePricing caller nr nd) = .error .Authorization :=
    update_pricing_unauthorized nr nd hc hne
  have h2 : exec s (.opWithdraw caller amt k) = .error .Authorization :=
    withdraw_unauthorized amt k hc hne
  exact ⟨by simp [execErr, h1], applyOp_of_error h1,
    by simp [execErr, h2], applyOp_of_error h2⟩

theorem unauthorized_admin_ops_fail_witness :
    execErr wState (.opUpdatePricing 99 (some 5) none) = some .Authorization ∧
    applyOp wState (.opUpdatePricing 99 (some 5) none) = wState ∧
    execErr wState (.opWithdraw 99 7 0) = some .Authorization ∧
    applyOp wState (.opWithdraw 99 7 0) = wState :=
  unauthorized_admin_ops_fail wState wCfg 99 (some 5) none 7 0 rfl (by decide)

/-- C5: `initialize`, invoked while the configuration record is absent,
creates the record with the caller as authority, the argument as master
reference, the default prices 200000000 and 100000000 lamports, a zero
mint counter, and the derived payment-vault address as treasury; it
succeeds whenever the caller can fund the record's rent. -/
theorem init_creates_config_record (s : LedgerState) (a m : Pubkey) (r k : Nat)
    (hnone : s.config = none) :
    (execOk s (.opInit a m r k) = true →
      (applyOp s (.opInit a m r k)).config = some
        { authority := a, master_mint := m, mint_price := 200000000,
          discounted_price := 100000000, total_minted := 0,
          payment_vault := paymentVaultAddress }) ∧
    (r ≤ s.balances a → k ≤ s.balances a - r → execOk s (.opInit a m r k) = true) := by
  constructor
  · intro hok
    cases hex : exec s (.opInit a m r k) with
    | error e => rw [execOk, hex] at hok; exact absurd hok (by simp)
    | ok t =>
      rw [applyOp_of_ok hex]
      exact (initConfig_ok (show initConfig s a m r k = .ok t from hex)).2.1
  · intro h1 h2
    have hst := @systemTransfer_pos s.balances a configAddress r k h1 h2
    show (match initConfig s a m r k with | .ok _ => true | .error _ => false) = true
    unfold initConfig
    rw [hnone]
    dsimp only
    rw [hst]

theorem init_creates_config_record_witness :
    (applyOp (genesis wBal) (.opInit 100 777 5 0)).config = some
      { authority := 100, master_mint := 777, mint_price := 200000000,
        discounted_price := 100000000, total_minted := 0,
        payment_vault := paymentVaultAddress } :=
  (init_creates_config_record (genesis wBal) 100 777 5 0 rfl).1
    ((init_creates_config_record (genesis wBal) 100 777 5 0 rfl).2 (by decide) (by decide))

/-- C6: a second `initialize` on an already-initialized store fails with
the invalid-state error (the account-already-in-use rejection of the
`init` constraint) and leaves all state exactly unchanged. -/
theorem reinit_rejected (s : LedgerState) (c : Config) (a m : Pubkey)
    (r k : Nat) (hc : s.config = some c) :
    execErr s (.opInit a m r k) = some .InvalidState ∧
    applyOp s (.opInit a m r k) = s := by
  have hex : exec s (.opInit a m r k) = .error .InvalidState := by
    show initConfig s a m r k = _
    unfold initConfig
    rw [hc]
  exact ⟨by simp [execErr, hex], applyOp_of_error hex⟩

theorem reinit_rejected_witness :
    execErr wState (.opInit 100 777 5 0) = some .InvalidState ∧
    applyOp wState (.opInit 100 777 5 0) = wState :=
  reinit_rejected wState wCfg 100 777 5 0 rfl

/-- C7: `update_pricing` called by the stored authority always succeeds,
for any optional `u64` arguments (no bounds check); each supplied price
overwrites exactly its field, an absent argument leaves that price
unchanged, and every other part of the state (remaining `Config` fields,
balances, minted records) is unchanged. -/
theorem update_pricing_exact (s : LedgerState) (c : Config) (caller : Pubkey)
    (nr nd : Option Nat) (hc : s.config = some c) (hauth : caller = c.authority) :
    exec s (.opUpdatePricing caller nr nd) = .ok
      { s with config := some { c with
          mint_price := nr.getD c.mint_price,
          discounted_price := nd.getD c.discounted_price } } := by
  show update_pricing s caller nr nd = _
  unfold update_pricing
  rw [hc]
  dsimp only
  rw [if_pos hauth]
  cases nr <;> cases nd <;> rfl

theorem update_pricing_exact_witness :
    exec wState (.opUpdatePricing 100 (some 300000000) none) = .ok
      { wState with config := some { wCfg with mint_price := 300000000 } } :=
  update_pricing_exact wState wCfg 100 (some 300000000) none rfl rfl

/-- C8: `withdraw` called by the stored authority transfers exactly
`amount` lamports from the treasury to the authority (the transfer is
authorized by the vault's seed derivation, modelled by the absence of any
signature requirement on the vault), and fails with no state change when
the treasury balance minus `amount` would go negative or drop below the
runtime's keep-alive minimum. -/
theorem withdraw_transfer (s : LedgerState) (c : Config) (caller : Pubkey)
    (amt k : Nat) (hc : s.config = some c) (hauth : caller = c.authority)
    (hcv : caller ≠ paymentVaultAddress) :
    (amt ≤ s.balances paymentVaultAddress →
     k ≤ s.balances paymentVaultAddress - amt →
      execOk s (.opWithdraw caller amt k) = true ∧
      (applyOp s (.opWithdraw caller amt k)).balances paymentVaultAddress
        = s.balances paymentVaultAddress - amt ∧
      (applyOp s (.opWithdraw caller amt k)).balances caller
        = s.balances caller + amt) ∧
    ((amt > s.balances paymentVaultAddress ∨
      s.balances paymentVaultAddress - amt < k) →
      execErr s (.opWithdraw caller amt k) = some .InsufficientFunds ∧
      applyOp s (.opWithdraw caller amt k) = s) := by
  constructor
  · intro h1 h2
    have hst := @systemTransfer_pos s.balances paymentVaultAddress caller amt k h1 h2
    have hokk : execOk s (.opWithdraw caller amt k) = true := by
      show (match withdraw s caller amt k with | .ok _ => true | .error _ => false) = true
      unfold withdraw
      rw [hc]
      dsimp only
      rw [if_pos hauth, hst]
    cases hex : exec s (.opWithdraw caller amt k) with
    | error e => simp [execOk, hex] at hokk
    | ok t =>
      obtain ⟨c2, -, -, htr, -, -⟩ :=
        withdraw_ok (show withdraw s caller amt k = .ok t from hex)
      rw [applyOp_of_ok hex]
      exact ⟨hokk, systemTransfer_ok_src htr (Ne.symm hcv),
        systemTransfer_ok_dest htr (Ne.symm hcv)⟩
  · intro hfail
    have hst := @systemTransfer_neg s.balances paymentVaultAddress caller amt k hfail
    have hex : exec s (.opWithdraw caller amt k) = .error .InsufficientFunds := by
      show withdraw s caller amt k = _
      unfold withdraw
      rw [hc]
      dsimp only
      rw [if_pos hauth, hst]
    exact ⟨by simp [execErr, hex], applyOp_of_error hex⟩

theorem withdraw_transfer_witness :
    execOk wState (.opWithdraw 100 400 0) = true ∧
    (applyOp wState (.opWithdraw 100 400 0)).balances paymentVaultAddress
      = wState.balances paymentVaultAddress - 400 ∧
    (applyOp wState (.opWithdraw 100 400 0)).balances 100
      = wState.balances 100 + 400 :=
  (withdraw_transfer wState wCfg 100 400 0 rfl rfl (by decide)).1
    (by decide) (by decide)

/-- C9: every invocation of `withdraw`, successful or failed, leaves every
field of the configuration record unchanged (the `Withdraw` account
struct does not even mark the config account mutable), and mints nothing. -/
theorem withdraw_preserves_config (s : LedgerState) (caller : Pubkey) (amt k : Nat) :
    (applyOp s (.opWithdraw caller amt k)).config = s.config ∧
    (applyOp s (.opWithdraw caller amt k)).minted = s.minted := by
  cases hex : exec s (.opWithdraw caller amt k) with
  | error e => rw [applyOp_of_error hex]; exact ⟨rfl, rfl⟩
  | ok t =>
    rw [applyOp_of_ok hex]
    obtain ⟨c, -, -, -, hcfg, hm⟩ :=
      withdraw_ok (show withdraw s caller amt k = .ok t from hex)
    exact ⟨hcfg, hm⟩

/-- C10: no operation ever returns one of the program's own declared
error codes (`Unauthorized`, `InvalidMasterMint`, `InsufficientPayment`),
and the outcome of a mint is independent of which master-reference
account the caller supplies, because `mint_nft_internal` never compares
it against `Config.master_mint`. -/
theorem program_error_codes_never_returned :
    (∀ (s : LedgerState) (op : Op),
      ((execErr s op).all fun e => ! isProgramErrorCode e) = true) ∧
    (∀ (s : LedgerState) (mi em a1 a2 : Pubkey) (env : MintEnv) (d : Bool),
      exec s (mintOpOf d mi em a1 env) = exec s (mintOpOf d mi em a2 env)) := by
  constructor
  · intro s op
    cases hex : exec s op with
    | ok t => simp [execErr, hex]
    | error e =>
      have hnp : isProgramErrorCode e = false := by
        cases op with
        | opInit a m r k =>
          rcases initConfig_error (show initConfig s a m r k = .error e from hex)
            with rfl | rfl <;> rfl
        | opMintEdition mi em acc env =>
          rcases @mint_nft_internal_error s mi em acc env false e hex
            with rfl | rfl | rfl <;> rfl
        | opMintDiscounted mi em acc env =>
          rcases @mint_nft_internal_error s mi em acc env true e hex
            with rfl | rfl | rfl <;> rfl
        | opUpdatePricing caller nr nd =>
          rcases update_pricing_error
              (show update_pricing s caller nr nd = .error e from hex)
            with rfl | rfl <;> rfl
        | opWithdraw caller amt k =>
          rcases withdraw_error (show withdraw s caller amt k = .error e from hex)
            with rfl | rfl | rfl <;> rfl
      simp [execErr, hex, Option.all, hnp]
  · intro s mi em a1 a2 env d
    cases d <;> rfl

/-- C1: starting from any pre-`initialize` ledger, after the `N`-th
successful mint (any interleaving of the five operations), the stored
counter equals `N`, the `N`-th minted unit's display name is
literally `AMMo Founder #N`, and all display names minted so far are
pairwise distinct, for `N` below `2 ^ 64`. -/
theorem nth_mint_sequence (bal : Pubkey → Nat) (h : List Op) (N : Nat)
    (hone : 1 ≤ N) (hlt : N < U64)
    (hN : (run (genesis bal) h).minted.length = N) :
    totalMinted (run (genesis bal) h) = N ∧
    (namesList (run (genesis bal) h)).getLast? = some (founderName N) ∧
    (namesList (run (genesis bal) h)).Nodup := by
  obtain ⟨ht, hs⟩ := namesOk_run h (namesOk_genesis bal)
  rw [hN] at ht hs
  refine ⟨?_, ?_, ?_⟩
  · rw [ht, Nat.mod_eq_of_lt hlt]
  · rw [hs]
    obtain ⟨M, rfl⟩ : ∃ M, N = M + 1 := ⟨N - 1, by omega⟩
    simp only [List.range_succ, List.map_append, List.map_cons, List.map_nil,
      List.getLast?_concat]
    rw [Nat.mod_eq_of_lt hlt]
  · rw [hs]
    refine List.Nodup.map_on ?_ (List.nodup_range _)
    intro x hx y hy hf
    have hx2 : x < N := List.mem_range.mp hx
    have hy2 : y < N := List.mem_range.mp hy
    have hxy : (x + 1) % U64 = (y + 1) % U64 := founderName_inj hf
    rw [Nat.mod_eq_of_lt (by omega), Nat.mod_eq_of_lt (by omega)] at hxy
    omega

theorem nth_mint_sequence_witness :
    totalMinted (run (genesis wBal) wHist) = 1 ∧
    (namesList (run (genesis wBal) wHist)).getLast? = some (founderName 1) ∧
    (namesList (run (genesis wBal) wHist)).Nodup :=
  nth_mint_sequence wBal wHist 1 (by decide) (by decide) (by decide)

/-- C2 (amended): a successful mint credits exactly the selected price to
the treasury, and debits the caller exactly that price plus the rent
deposit for the fresh mint account (the rent goes to the new mint
account, not the treasury); a failing mint leaves the whole state, hence
both balances, exactly unchanged. -/
theorem mint_payment_flow (s : LedgerState) (c : Config) (mi em acc : Pubkey)
    (env : MintEnv) (d : Bool) (hc : s.config = some c)
    (h1 : mi ≠ paymentVaultAddress) (h2 : em ≠ paymentVaultAddress)
    (h3 : em ≠ mi) :
    (execOk s (mintOpOf d mi em acc env) = true →
      (applyOp s (mintOpOf d mi em acc env)).balances paymentVaultAddress
        = s.balances paymentVaultAddress + price_for c d ∧
      (applyOp s (mintOpOf d mi em acc env)).balances mi
          + (price_for c d + env.mint_rent)
        = s.balances mi) ∧
    (execOk s (mintOpOf d mi em acc env) = false →
      applyOp s (mintOpOf d mi em acc env) = s) := by
  constructor
  · intro hok
    cases hex : exec s (mintOpOf d mi em acc env) with
    | error e => simp [execOk, hex] at hok
    | ok t =>
      rw [applyOp_of_ok hex]
      rw [exec_mintOpOf] at hex
      obtain ⟨c2, b1, hc2, htr1, htr2, -, -⟩ := mint_nft_internal_ok hex
      rw [hc] at hc2
      obtain rfl : c = c2 := Option.some.inj hc2
      constructor
      · have hv2 : t.balances paymentVaultAddress = b1 paymentVaultAddress :=
          systemTransfer_ok_other htr2 (Ne.symm h1) (Ne.symm h2)
        have hv1 : b1 paymentVaultAddress
            = s.balances paymentVaultAddress + price_for c d :=
          systemTransfer_ok_dest htr1 h1
        rw [hv2, hv1]
      · have hm2 : t.balances mi = b1 mi - env.mint_rent :=
          systemTransfer_ok_src htr2 (Ne.symm h3)
        have hm1 : b1 mi = s.balances mi - price_for c d :=
          systemTransfer_ok_src htr1 h1
        have hp1 := (systemTransfer_ok htr1).1
        have hp2 := (systemTransfer_ok htr2).1
        rw [hm2, hm1]
        rw [hm1] at hp2
        omega
  · intro hfail
    cases hex : exec s (mintOpOf d mi em acc env) with
    | ok t => simp [execOk, hex] at hfail
    | error e => exact applyOp_of_error hex

theorem mint_payment_flow_witness :
    (applyOp wState (mintOpOf false 50 55 777 cexEnv)).balances paymentVaultAddress
      = wState.balances paymentVaultAddress + price_for wCfg false ∧
    (applyOp wState (mintOpOf false 50 55 777 cexEnv)).balances 50
        + (price_for wCfg false + cexEnv.mint_rent)
      = wState.balances 50 :=
  (mint_payment_flow wState wCfg 50 55 777 cexEnv false rfl (by decide)
    (by decide) (by decide)).1 (by decide)

/-- C2 counterexample: on a successful standard mint with a positive rent
deposit for the fresh mint account (the source computes it at line 130
and funds it from the caller at lines 131-144), the caller's balance does
not drop by exactly `mint_price`: it drops by `mint_price` plus the rent,
so the claim that a standard mint debits exactly the stored standard
price from the caller is false. -/
theorem mint_payment_claim_cex :
    execOk wState (.opMintEdition 50 55 777 cexEnv) = true ∧
    wState.config = some wCfg ∧
    wCfg.mint_price = 200000000 ∧
    (applyOp wState (.opMintEdition 50 55 777 cexEnv)).balances 50
      = wState.balances 50 - 200000000 - 1461600 ∧
    wState.balances 50 - 200000000 - 1461600 ≠ wState.balances 50 - 200000000 := by
  exact ⟨by decide, rfl, rfl, by decide, by decide⟩

/-- One free mint on a configuration whose standard price is 0 always
succeeds and bumps the counter by 1 modulo `2 ^ 64`. -/
theorem exec_cexMint_ok {s : LedgerState} {c : Config} (hc : s.config = some c)
    (hp : c.mint_price = 0) :
    ∃ t, exec s cexMint = .ok t ∧
      t.config = some { c with total_minted := (c.total_minted + 1) % U64 } := by
  show ∃ t, mint_nft_internal s 50 55 777 cexFreeEnv false = .ok t ∧ _
  unfold mint_nft_internal
  rw [hc]
  dsimp only
  have hpr : price_for c false = 0 := by simp [price_for, hp]
  simp only [cexFreeEnv, hpr]
  rw [@systemTransfer_pos s.balances 50 paymentVaultAddress 0 0 (Nat.zero_le _)
    (Nat.zero_le _)]
  dsimp only
  rw [@systemTransfer_pos _ 50 55 0 0 (Nat.zero_le _) (Nat.zero_le _)]
  dsimp only
  exact ⟨_, rfl, rfl⟩

/-- Running `k` free mints multiplies out to adding `k` to the counter,
modulo `2 ^ 64`. -/
theorem run_replicate_free_mint (k : Nat) :
    ∀ (s : LedgerState) (c : Config), s.config = some c → c.mint_price = 0 →
      c.total_minted < U64 →
      (run s (List.replicate k cexMint)).config
        = some { c with total_minted := (c.total_minted + k) % U64 } := by
  induction k with
  | zero =>
    intro s c hc hp ht
    show s.config = _
    rw [Nat.add_zero, Nat.mod_eq_of_lt ht]
    exact hc
  | succ n ih =>
    intro s c hc hp ht
    rw [List.replicate_succ, run_cons]
    obtain ⟨t, hex, hct⟩ := exec_cexMint_ok hc hp
    rw [applyOp_of_ok hex]
    have hmodlt : (c.total_minted + 1) % U64 < U64 :=
      Nat.mod_lt _ (by decide)
    have hstep := ih t { c with total_minted := (c.total_minted + 1) % U64 }
      hct hp hmodlt
    rw [hstep]
    have harith : ((c.total_minted + 1) % U64 + n) % U64
        = (c.total_minted + (n + 1)) % U64 := by
      rw [Nat.mod_add_mod]
      congr 1
      omega
    rw [harith]

/-- C3 counterexample: the claim that `total_minted` is monotonically
non-decreasing across every history fails on the history that performs
`2 ^ 64` successful mints after initializing and setting the price to 0:
the wrapping `+= 1` of the source (line 122, u64 arithmetic) takes the
counter from `2 ^ 64 - 1` back to 0 on the last mint. -/
theorem total_minted_monotone_cex :
    totalMinted (run (genesis wBal) (cexPrefixHist ++ [cexMint]))
      < totalMinted (run (genesis wBal) cexPrefixHist) := by
  have hsetup : (run (genesis wBal) cexSetup).config = some cexCfg0 := by decide
  have h1 := run_replicate_free_mint (U64 - 1) (run (genesis wBal) cexSetup)
    cexCfg0 hsetup rfl (by decide)
  have h2 := run_replicate_free_mint U64 (run (genesis wBal) cexSetup)
    cexCfg0 hsetup rfl (by decide)
  have hupred : U64 - 1 + 1 = U64 := by
    have hpos : 0 < U64 := by decide
    omega
  have hre : cexPrefixHist ++ [cexMint] = cexSetup ++ List.replicate U64 cexMint := by
    have hr : List.replicate (U64 - 1) cexMint ++ [cexMint]
        = List.replicate U64 cexMint := by
      rw [← List.replicate_succ', hupred]
    unfold cexPrefixHist
    rw [List.append_assoc, hr]
  have e1 : totalMinted (run (genesis wBal) cexPrefixHist) = U64 - 1 := by
    unfold cexPrefixHist
    rw [run_append, totalMinted_eq h1]
    show (0 + (U64 - 1)) % U64 = U64 - 1
    rw [Nat.zero_add]
    exact Nat.mod_eq_of_lt (by decide)
  have e2 : totalMinted (run (genesis wBal) (cexPrefixHist ++ [cexMint])) = 0 := by
    rw [hre, run_append, totalMinted_eq h2]
    show (0 + U64) % U64 = 0
    rw [Nat.zero_add]
    exact Nat.mod_self U64
  rw [e1, e2]
  decide

/-- C3 (amended): a failed operation leaves the state unchanged; a
successful operation either is a mint and sets the counter to its old
value plus one modulo `2 ^ 64`, or is not a mint and leaves the counter
unchanged; consequently `total_minted` is non-decreasing along every
history containing fewer than `2 ^ 64` successful mints. -/
theorem total_minted_step_monotone :
    (∀ (s : LedgerState) (op : Op) (e : Err),
      exec s op = .error e → applyOp s op = s) ∧
    (∀ (s : LedgerState) (op : Op) (t : LedgerState), exec s op = .ok t →
      (isMintOp op = true ∧ totalMinted t = (totalMinted s + 1) % U64) ∨
      (isMintOp op = false ∧ totalMinted t = totalMinted s)) ∧
    (∀ (bal : Pubkey → Nat) (h t : List Op),
      (run (genesis bal) (h ++ t)).minted.length < U64 →
      totalMinted (run (genesis bal) h) ≤ totalMinted (run (genesis bal) (h ++ t))) := by
  refine ⟨?_, ?_, ?_⟩
  · intro s op e h
    exact applyOp_of_error h
  · intro s op t hex
    cases op with
    | opInit a m r k =>
      obtain ⟨hc, hct, -⟩ := initConfig_ok (show initConfig s a m r k = .ok t from hex)
      exact Or.inr ⟨rfl, by simp [totalMinted, hct, hc]⟩
    | opMintEdition mi em acc env =>
      obtain ⟨c, b1, hc, -, -, hct, -⟩ := @mint_nft_internal_ok s mi em acc env false t hex
      exact Or.inl ⟨rfl, by simp [totalMinted, hct, hc]⟩
    | opMintDiscounted mi em acc env =>
      obtain ⟨c, b1, hc, -, -, hct, -⟩ := @mint_nft_internal_ok s mi em acc env true t hex
      exact Or.inl ⟨rfl, by simp [totalMinted, hct, hc]⟩
    | opUpdatePricing caller nr nd =>
      obtain ⟨c, hc, -, hct, -, -⟩ :=
        update_pricing_ok (show update_pricing s caller nr nd = .ok t from hex)
      exact Or.inr ⟨rfl, by simp [totalMinted, hct, hc]⟩
    | opWithdraw caller amt k =>
      obtain ⟨c, hc, -, -, hct, -⟩ :=
        withdraw_ok (show withdraw s caller amt k = .ok t from hex)
      exact Or.inr ⟨rfl, by simp [totalMinted, hct]⟩
  · intro bal h t hlen
    obtain ⟨ht1, -⟩ := namesOk_run h (namesOk_genesis bal)
    obtain ⟨ht2, -⟩ := namesOk_run (h ++ t) (namesOk_genesis bal)
    have hmono : (run (genesis bal) h).minted.length
        ≤ (run (genesis bal) (h ++ t)).minted.length := by
      rw [run_append]
      exact minted_length_run _ t
    rw [ht1, ht2, Nat.mod_eq_of_lt (by omega), Nat.mod_eq_of_lt hlen]
    exact hmono

theorem total_minted_step_monotone_witness :
    totalMinted (run (genesis wBal) cexSetup) ≤
      totalMinted (run (genesis wBal) (cexSetup ++ [cexMint])) :=
  total_minted_step_monotone.2.2 wBal cexSetup [cexMint] (by decide)

end NftMinter
